import Mathlib

/-!
Verification of the SecureDownloadsOrchestrator ingestion pipeline.

Shallow embedding of the Python sources:
  * `modules/extract.py`   — `safe_extract_path`, `extract_archives` (ZIP and TAR loops)
  * `orchestrator.py`      — `retry_operation`, `process_new_file` (recursion/depth logic)
  * `modules/organize.py`  — `file_hash`, `sanitize_filename`, `organize_file`
  * `modules/antivirus.py` — `scan_file`

Filesystem paths are modelled as lists of POSIX components (no component
contains a separator).  Machine integers are `Nat`; Python's float division
in the compression-ratio test is modelled by the exact cross-multiplied
comparison that the source comparison performs on the integers it reads.
-/

namespace SDO

/-! ## POSIX path model (`os.path` on a POSIX host, as used by the sources) -/

/-- A path, absolute or relative, as its list of components. -/
abbrev Comps := List String

/-- One step of `os.path.normpath` on a *relative* path: `.` and empty
components vanish; `..` pops the previous component unless the accumulator
is empty or already ends in `..` (leading `..`s of a relative path are kept). -/
def normRelStep (acc : Comps) (c : String) : Comps :=
  if c = "" ∨ c = "." then acc
  else if c = ".." then
    if acc = [] ∨ acc.getLast? = some ".." then acc ++ [".."]
    else acc.dropLast
  else acc ++ [c]

/-- `os.path.normpath` on a relative path, component level. -/
def normRel (cs : Comps) : Comps := cs.foldl normRelStep []

/-- One step of normalising an *absolute* path: like `normRelStep`, but a
`..` at the root is dropped (`/..` normalises to `/`). -/
def normAbsStep (acc : Comps) (c : String) : Comps :=
  if c = "" ∨ c = "." then acc
  else if c = ".." then acc.dropLast
  else acc ++ [c]

/-- `os.path.normpath`/`os.path.abspath` on an absolute path, component level. -/
def normAbs (cs : Comps) : Comps := cs.foldl normAbsStep []

/-- `a` is an initial segment of `b` (Boolean). -/
def listLe : Comps → Comps → Bool
  | [], _ => true
  | _ :: _, [] => false
  | a :: as, b :: bs => a == b && listLe as bs

/-- The containment test of `safe_extract_path` (extract.py lines 72–74):
`full_path.startswith(extract_to + os.sep) or full_path == extract_to`,
on normalised absolute component lists.  For the string test to hold with a
trailing separator appended, `extract_to` must be nonempty (a root `"/"`
extraction directory would compare against `"//"`, which never matches a
normalised path); the component model mirrors that exactly. -/
def withinDir (base p : Comps) : Bool :=
  (decide (base ≠ []) && listLe base p && decide (p ≠ base)) || p == base

/-- `safe_extract_path(extract_to, member_path)` from extract.py lines 47–76.
`extractTo` is the base directory (absolute components), the member is given
as its components plus an absoluteness flag (a leading `/` in the archive
entry name).  Returns the resolved full path when it is contained in the
extraction directory, `none` (Python `None`) otherwise. -/
def safe_extract_path (extractTo : Comps) (memberAbs : Bool) (member : Comps) :
    Option Comps :=
  -- extract_to = os.path.abspath(extract_to)
  let base := normAbs extractTo
  -- member_path = os.path.normpath(member_path); absolute members keep
  -- absolute-style normalisation, then the leading separator is stripped
  -- (os.name is "posix": no drive-letter branch is taken)
  let m := if memberAbs then normAbs member else normRel member
  -- full_path = os.path.abspath(os.path.join(extract_to, member_path))
  let full := normAbs (base ++ m)
  if withinDir base full then some full else none

/-! ## Archive extraction (`extract_archives`, extract.py lines 123–299)

The ZIP branch iterates `zf.infolist()`, the TAR branch iterates the
members of `tarfile.open`.  Per-entry write failures (the inner
`try/except` around `zf.extract` / `tf.extract`) are not modelled: a write
either happens at the location the stdlib chooses or the entry is skipped
by one of the checks that precede it. -/

/-- A ZIP entry as read from `zf.infolist()`: the components of
`info.filename`, whether that name begins with a separator, the declared
uncompressed size `info.file_size`, the stored compressed size
`info.compress_size`, and whether the entry is a directory. -/
structure ZipEntry where
  comps : Comps
  isAbs : Bool := false
  fileSize : Nat := 0
  compressSize : Nat := 0
  isDir : Bool := false
deriving DecidableEq, Repr

/-- A TAR member as read from `tarfile.open`: the components of
`member.name`, whether the stored name is absolute, and `member.size`.
`compressSize` records the compressed size of the member in the underlying
archive stream; `tarfile.TarInfo` does not expose that quantity and the
TAR branch of `extract_archives` never reads it — the field exists only so
that compression-ratio statements can be posed about TAR entries. -/
structure TarEntry where
  comps : Comps
  isAbs : Bool := false
  size : Nat := 0
  isDir : Bool := false
  compressSize : Nat := 0
deriving DecidableEq, Repr

/-- The extraction limits read from the configuration
(extract.py lines 167–170), with the `config.get` defaults. -/
structure ExtractCfg where
  extractTo : Comps
  maxFiles : Nat := 10000
  maxSize : Nat := 10737418240
  maxRatio : Nat := 100
deriving Repr

/-- Running state of the ZIP entry loop (extract.py lines 172–211):
the entries actually handed to `zf.extract`, the entries skipped by the
compression-ratio test, the entries skipped by `safe_extract_path`,
`files_extracted`, and `total_size`. -/
structure ZipState where
  extracted : List ZipEntry := []
  ratioSkipped : List ZipEntry := []
  unsafeSkipped : List ZipEntry := []
  filesExtracted : Nat := 0
  totalSize : Nat := 0
deriving Repr

/-- Running state of the TAR member loop (extract.py lines 216–239). -/
structure TarState where
  extracted : List TarEntry := []
  unsafeSkipped : List TarEntry := []
  filesExtracted : Nat := 0
  totalSize : Nat := 0
deriving Repr

/-- The ZIP entry loop of `extract_archives` (extract.py lines 181–211).
Checks run in source order: file-count break, aggregate-size break,
compression-ratio skip (only when `info.compress_size > 0`; the Python
float comparison `info.file_size / info.compress_size >
max_compression_ratio` is the exact comparison
`fileSize > maxRatio * compressSize`), then the `safe_extract_path`
containment skip, then extraction. -/
def extract_archives_zip (cfg : ExtractCfg) : List ZipEntry → ZipState → ZipState
  | [], st => st
  | e :: rest, st =>
    if st.filesExtracted ≥ cfg.maxFiles then st
    else if st.totalSize + e.fileSize > cfg.maxSize then st
    else if 0 < e.compressSize ∧ cfg.maxRatio * e.compressSize < e.fileSize then
      extract_archives_zip cfg rest { st with ratioSkipped := st.ratioSkipped ++ [e] }
    else
      match safe_extract_path cfg.extractTo e.isAbs e.comps with
      | none => extract_archives_zip cfg rest
          { st with unsafeSkipped := st.unsafeSkipped ++ [e] }
      | some _ => extract_archives_zip cfg rest
          { st with
            extracted := st.extracted ++ [e]
            filesExtracted := st.filesExtracted + 1
            totalSize := st.totalSize + e.fileSize }

/-- The TAR member loop of `extract_archives` (extract.py lines 216–239).
Checks run in source order: file-count break, aggregate-size break,
`safe_extract_path` containment skip, then extraction.  The source
performs no compression-ratio check in this branch. -/
def extract_archives_tar (cfg : ExtractCfg) : List TarEntry → TarState → TarState
  | [], st => st
  | e :: rest, st =>
    if st.filesExtracted ≥ cfg.maxFiles then st
    else if st.totalSize + e.size > cfg.maxSize then st
    else
      match safe_extract_path cfg.extractTo e.isAbs e.comps with
      | none => extract_archives_tar cfg rest
          { st with unsafeSkipped := st.unsafeSkipped ++ [e] }
      | some _ => extract_archives_tar cfg rest
          { st with
            extracted := st.extracted ++ [e]
            filesExtracted := st.filesExtracted + 1
            totalSize := st.totalSize + e.size }

/-- Where `zf.extract(info, extract_to)` actually writes an approved ZIP
entry: CPython `zipfile._extract_member` drops empty, `.` and `..`
components of the member name (and any leading separator) before joining
it to the target directory, so the written path is always below it. -/
def zipWritePath (cfg : ExtractCfg) (e : ZipEntry) : Comps :=
  normAbs cfg.extractTo ++ e.comps.filter (fun c => ¬(c = "" ∨ c = "." ∨ c = ".."))

/-- Where `tf.extract(member, extract_to)` actually writes an approved TAR
member: CPython `tarfile` (default `fully_trusted` extraction filter,
Python < 3.14) computes `os.path.join(path, tarinfo.name)` — and
`os.path.join` DISCARDS the extraction directory when the stored member
name is absolute.  A relative name is written below the extraction
directory; an absolute name is written at that absolute location. -/
def tarWritePath (cfg : ExtractCfg) (e : TarEntry) : Comps :=
  if e.isAbs then normAbs e.comps else normAbs (normAbs cfg.extractTo ++ e.comps)

/-- An entry is a ratio-bomb candidate under the limits of `cfg`:
nonzero compressed size and declared/compressed ratio above the threshold,
exactly the test at extract.py lines 191–193. -/
def ratioBad (cfg : ExtractCfg) (e : ZipEntry) : Prop :=
  0 < e.compressSize ∧ cfg.maxRatio * e.compressSize < e.fileSize

instance (cfg : ExtractCfg) (e : ZipEntry) : Decidable (ratioBad cfg e) := by
  unfold ratioBad; infer_instance

/-- Loop invariant of the ZIP entry loop: running it from any state
appends to `extracted` only reached entries that failed the ratio test,
adds exactly their declared sizes to `total_size`, and appends to
`ratioSkipped` only entries for which the ratio test fired. -/
theorem zip_loop_invariant (cfg : ExtractCfg) (es : List ZipEntry) (st : ZipState) :
    ∃ xs ys,
      (extract_archives_zip cfg es st).extracted = st.extracted ++ xs ∧
      (extract_archives_zip cfg es st).totalSize =
        st.totalSize + (xs.map ZipEntry.fileSize).sum ∧
      (∀ e ∈ xs, e ∈ es ∧ ¬ ratioBad cfg e) ∧
      (extract_archives_zip cfg es st).ratioSkipped = st.ratioSkipped ++ ys ∧
      (∀ e ∈ ys, e ∈ es ∧ ratioBad cfg e) := by
  induction es generalizing st with
  | nil =>
    exact ⟨[], [], by simp [extract_archives_zip], by simp [extract_archives_zip],
      by simp, by simp [extract_archives_zip], by simp⟩
  | cons e rest ih =>
    by_cases hcount : st.filesExtracted ≥ cfg.maxFiles
    · refine ⟨[], [], ?_, ?_, by simp, ?_, by simp⟩ <;>
        simp [extract_archives_zip, hcount]
    · by_cases hsize : st.totalSize + e.fileSize > cfg.maxSize
      · refine ⟨[], [], ?_, ?_, by simp, ?_, by simp⟩ <;>
          simp [extract_archives_zip, hcount, hsize]
      · by_cases hratio : ratioBad cfg e
        · obtain ⟨xs, ys, h1, h2, h3, h4, h5⟩ :=
            ih { st with ratioSkipped := st.ratioSkipped ++ [e] }
          refine ⟨xs, e :: ys, ?_, ?_, ?_, ?_, ?_⟩
          · simpa [extract_archives_zip, hcount, hsize, hratio.1, hratio.2] using h1
          · simpa [extract_archives_zip, hcount, hsize, hratio.1, hratio.2] using h2
          · exact fun x hx => ⟨List.mem_cons_of_mem _ (h3 x hx).1, (h3 x hx).2⟩
          · have := h4
            simp only [extract_archives_zip, hcount, hsize] at *
            simp [hratio.1, hratio.2, List.append_assoc] at this ⊢
            simpa using this
          · intro x hx
            rcases List.mem_cons.mp hx with rfl | hx'
            · exact ⟨List.mem_cons_self _ _, hratio⟩
            · exact ⟨List.mem_cons_of_mem _ (h5 x hx').1, (h5 x hx').2⟩
        · unfold ratioBad at hratio
          rcases hsafe : safe_extract_path cfg.extractTo e.isAbs e.comps with _ | p
          · obtain ⟨xs, ys, h1, h2, h3, h4, h5⟩ :=
              ih { st with unsafeSkipped := st.unsafeSkipped ++ [e] }
            refine ⟨xs, ys, ?_, ?_, ?_, ?_, ?_⟩
            · simpa [extract_archives_zip, hcount, hsize, hratio, hsafe] using h1
            · simpa [extract_archives_zip, hcount, hsize, hratio, hsafe] using h2
            · exact fun x hx => ⟨List.mem_cons_of_mem _ (h3 x hx).1, (h3 x hx).2⟩
            · simpa [extract_archives_zip, hcount, hsize, hratio, hsafe] using h4
            · exact fun x hx => ⟨List.mem_cons_of_mem _ (h5 x hx).1, (h5 x hx).2⟩
          · obtain ⟨xs, ys, h1, h2, h3, h4, h5⟩ :=
              ih { st with
                     extracted := st.extracted ++ [e]
                     filesExtracted := st.filesExtracted + 1
                     totalSize := st.totalSize + e.fileSize }
            refine ⟨e :: xs, ys, ?_, ?_, ?_, ?_, ?_⟩
            · have := h1
              simp only [extract_archives_zip, hcount, hsize] at *
              simp [hratio, hsafe] at this ⊢
              simpa [List.append_assoc] using this
            · have := h2
              simp only [extract_archives_zip, hcount, hsize] at *
              simp [hratio, hsafe] at this ⊢
              omega
            · intro x hx
              rcases List.mem_cons.mp hx with rfl | hx'
              · exact ⟨List.mem_cons_self _ _, hratio⟩
              · exact ⟨List.mem_cons_of_mem _ (h3 x hx').1, (h3 x hx').2⟩
            · simpa [extract_archives_zip, hcount, hsize, hratio, hsafe] using h4
            · exact fun x hx => ⟨List.mem_cons_of_mem _ (h5 x hx).1, (h5 x hx).2⟩

/-- Claim C1 (code bug, demonstrated at the failing input): a TAR archive
containing a member whose stored name is the absolute path `/tmp/evil`
defeats the traversal protection.  `safe_extract_path` strips the leading
separator, resolves the name inside the extraction directory and approves
the entry, so the loop does not skip it — but `tf.extract` then joins the
ORIGINAL absolute name to the extraction directory, and `os.path.join`
discards the extraction directory for an absolute second argument: the
member is written at `/tmp/evil`, outside the isolated directory,
contradicting the claim that no extraction ever writes a file outside it. -/
theorem tar_absolute_member_escapes_isolation :
    let cfg : ExtractCfg := { extractTo := ["data", "tmp_unzip", "extract_1_2"] }
    let e : TarEntry := { comps := ["tmp", "evil"], isAbs := true, size := 5 }
    let st := extract_archives_tar cfg [e] {}
    st.extracted = [e] ∧ st.unsafeSkipped = [] ∧
    tarWritePath cfg e = ["tmp", "evil"] ∧
    withinDir (normAbs cfg.extractTo) (tarWritePath cfg e) = false := by
  decide

/-- Claim C3 counterexample: the compression-ratio check does NOT apply to
the TAR branch.  A TAR member whose declared size (1000) divided by its
compressed size (1) exceeds the default threshold (100) is extracted
anyway and its declared size IS added to the running aggregate size,
refuting the claim that the ratio skip holds for ZIP and TAR alike. -/
theorem tar_ratio_bomb_not_rejected :
    let cfg : ExtractCfg := { extractTo := ["data", "tmp_unzip", "extract_1_2"] }
    let e : TarEntry := { comps := ["boom"], size := 1000, compressSize := 1 }
    let st := extract_archives_tar cfg [e] {}
    0 < e.compressSize ∧ cfg.maxRatio * e.compressSize < e.size ∧
    st.extracted = [e] ∧ st.totalSize = 1000 := by
  decide

/-- Claim C3 (amended): in the ZIP branch of `extract_archives`, every
entry with nonzero compressed size whose declared size exceeds
`maxCompressionRatio` times its compressed size is never extracted, the
aggregate `total_size` is exactly the sum of the declared sizes of the
entries actually extracted (so a ratio-skipped entry contributes nothing),
and an entry with zero compressed size is never skipped by the ratio test.
The TAR branch performs no ratio check at all. -/
theorem zip_ratio_bomb_rejected (cfg : ExtractCfg) (entries : List ZipEntry) :
    (extract_archives_zip cfg entries {}).totalSize =
      ((extract_archives_zip cfg entries {}).extracted.map ZipEntry.fileSize).sum ∧
    (∀ e ∈ entries, 0 < e.compressSize → cfg.maxRatio * e.compressSize < e.fileSize →
      e ∉ (extract_archives_zip cfg entries {}).extracted) ∧
    (∀ e ∈ (extract_archives_zip cfg entries {}).ratioSkipped,
      0 < e.compressSize ∧ cfg.maxRatio * e.compressSize < e.fileSize) := by
  obtain ⟨xs, ys, h1, h2, h3, h4, h5⟩ := zip_loop_invariant cfg entries {}
  have hx : (extract_archives_zip cfg entries {}).extracted = xs := by simpa using h1
  have hy : (extract_archives_zip cfg entries {}).ratioSkipped = ys := by simpa using h4
  refine ⟨?_, ?_, ?_⟩
  · rw [hx]; simpa using h2
  · intro e _ hpos hgt hmem
    rw [hx] at hmem
    exact (h3 e hmem).2 ⟨hpos, hgt⟩
  · intro e hmem
    rw [hy] at hmem
    exact (h5 e hmem).2

/-- A ratio-bomb ZIP entry used to witness `zip_ratio_bomb_rejected`. -/
def zipBombEntry : ZipEntry := { comps := ["bomb.bin"], fileSize := 500, compressSize := 1 }

/-- A stored (zero compressed size) ZIP entry used to witness
`zip_ratio_bomb_rejected`. -/
def zipStoredEntry : ZipEntry := { comps := ["plain.txt"], fileSize := 7, compressSize := 0 }

/-- Witness for `zip_ratio_bomb_rejected` at a concrete archive: the
ratio-bomb entry is not extracted, the aggregate size counts only the
extracted stored entry, and the stored entry is not ratio-skipped. -/
theorem zip_ratio_bomb_rejected_witness :
    zipBombEntry ∉
      (extract_archives_zip { extractTo := ["d", "u"] } [zipBombEntry, zipStoredEntry] {}).extracted ∧
    (extract_archives_zip { extractTo := ["d", "u"] } [zipBombEntry, zipStoredEntry] {}).totalSize =
      (((extract_archives_zip { extractTo := ["d", "u"] } [zipBombEntry, zipStoredEntry] {}).extracted).map
        ZipEntry.fileSize).sum := by
  refine ⟨?_, ?_⟩
  · exact (zip_ratio_bomb_rejected { extractTo := ["d", "u"] } [zipBombEntry, zipStoredEntry]).2.1
      zipBombEntry (by decide) (by decide) (by decide)
  · exact (zip_ratio_bomb_rejected { extractTo := ["d", "u"] } [zipBombEntry, zipStoredEntry]).1

/-! ## Filesystem operation traces (for the cleanup claim)

`extract_archives` and the controller are re-read as emitters of the
filesystem operations they perform, so that statements about what is and
is not removed can be settled by inspecting a run's trace. -/

/-- A filesystem operation performed by the pipeline. -/
inductive FsOp where
  | mkdirAll (p : Comps)
  | writeFile (p : Comps)
  | removeFileOp (p : Comps)
  | removeTreeOp (p : Comps)
  | moveFileOp (src dst : Comps)
deriving DecidableEq, Repr

/-- Whether an operation removes something from the filesystem. -/
def isRemovalOp : FsOp → Bool
  | .removeFileOp _ => true
  | .removeTreeOp _ => true
  | _ => false

/-- Operations of `clean_extraction_directory` (extract.py lines 78–121)
on a directory whose current items are `items` (name, is-directory): it
unlinks or rmtrees each item INSIDE the directory, never the directory
itself.  `extract_archives` calls it at line 165 on the just-created
unique directory, whose item list is empty. -/
def clean_extraction_directory_ops (extractTo : Comps) (items : List (String × Bool)) :
    List FsOp :=
  items.map (fun it =>
    if it.2 then FsOp.removeTreeOp (extractTo ++ [it.1])
    else FsOp.removeFileOp (extractTo ++ [it.1]))

/-- Operations of a successful ZIP run of `extract_archives`
(extract.py lines 135–299): create `tmp_unzip`, create the unique
isolated directory, clean its (empty) contents, write each approved
entry.  The function contains no removal of the isolated directory on any
of its exit paths. -/
def extract_archives_zip_ops (tmpUnzip : Comps) (cfg : ExtractCfg)
    (entries : List ZipEntry) : List FsOp :=
  [FsOp.mkdirAll tmpUnzip, FsOp.mkdirAll cfg.extractTo]
    ++ clean_extraction_directory_ops cfg.extractTo []
    ++ ((extract_archives_zip cfg entries {}).extracted.map
          (fun e => FsOp.writeFile (zipWritePath cfg e)))

/-- Operations the controller performs after `extract_archives` returns
(orchestrator.py lines 174–199): each extracted file is fed back into
`process_new_file`; for a plain extracted file that organizes
successfully the filesystem effect is the move to its destination.  The
`finally` block at line 194 only restores the depth attribute; no
controller path removes the isolated extraction directory. -/
def controller_after_extract_ops (cfg : ExtractCfg) (entries : List ZipEntry)
    (destFn : Comps → Comps) : List FsOp :=
  (extract_archives_zip cfg entries {}).extracted.map
    (fun e => FsOp.moveFileOp (zipWritePath cfg e) (destFn (zipWritePath cfg e)))

/-- The full operation trace of processing one ZIP archive of plain files:
extraction followed by the controller consuming the returned list. -/
def process_archive_ops (tmpUnzip : Comps) (cfg : ExtractCfg)
    (entries : List ZipEntry) (destFn : Comps → Comps) : List FsOp :=
  extract_archives_zip_ops tmpUnzip cfg entries
    ++ controller_after_extract_ops cfg entries destFn

/-- Claim C5 (code bug, demonstrated at the failing input): for a
successfully processed ZIP archive with one plain entry, the complete
operation trace of extraction plus the controller consuming the returned
file list creates the isolated extraction directory and never removes it
— indeed the trace contains no removal operation at all, contradicting
the claim that the isolated directory is removed on every exit path once
the caller has consumed the list.  The source has no
`rmtree(extract_to)`: `clean_extraction_directory` is called only BEFORE
extraction, on the freshly created directory, and only empties contents. -/
theorem extraction_directory_never_removed :
    let cfg : ExtractCfg := { extractTo := ["data", "tmp_unzip", "extract_9_7"] }
    let entries : List ZipEntry := [{ comps := ["doc.txt"], fileSize := 3, compressSize := 3 }]
    let ops := process_archive_ops ["data", "tmp_unzip"] cfg entries
      (fun p => ["data", "organized", "Documents"] ++ p.drop 3)
    FsOp.mkdirAll cfg.extractTo ∈ ops ∧
    FsOp.removeTreeOp cfg.extractTo ∉ ops ∧
    ops.all (fun o => !isRemovalOp o) = true := by
  decide

/-! ## The controller recursion (`process_new_file`, orchestrator.py 102–221)

The depth logic of `process_new_file` is modelled over an abstract tree of
files: a node is either a plain file or an archive whose children are the
files its extraction yields.  The scan is taken to return clean and the
extraction to succeed (the claims under scrutiny are about the depth
bookkeeping, which the source keeps in the function attribute
`_extraction_depth`; single-threaded, that attribute is exactly an extra
argument incremented before the recursive calls and restored after, which
is how it is rendered here).  A node is addressed by the list of child
indices leading to it; its nesting depth is the length of its address. -/

inductive FileTree where
  | file : FileTree
  | archive : List FileTree → FileTree

/-- What happened during one controller run: the addresses on which
`process_new_file` ran, the addresses of archives handed to
`extract_archives`, and the addresses of files handed to `organize_file`.
Archives are never handed to `organize_file`: the archive branch of the
source returns at line 199 before the organize step. -/
structure PipeResult where
  visited : List (List Nat) := []
  expanded : List (List Nat) := []
  organized : List (List Nat) := []
deriving Repr

mutual

/-- `process_new_file` on the node at address `addr`, running at
extraction depth `depth` (orchestrator.py lines 168–199): an archive is
always extracted first; only then, if `depth` has reached the maximum,
the extracted children are NOT processed; otherwise each child is
processed at `depth + 1`.  A plain file goes to `organize_file`. -/
def process_new_file (maxDepth : Nat) (addr : List Nat) (depth : Nat) :
    FileTree → PipeResult
  | .file => { visited := [addr], organized := [addr] }
  | .archive cs =>
    if maxDepth ≤ depth then { visited := [addr], expanded := [addr] }
    else
      let r := processChildren maxDepth addr 0 (depth + 1) cs
      { visited := addr :: r.visited
        expanded := addr :: r.expanded
        organized := r.organized }

/-- The loop over extracted files (orchestrator.py lines 188–193), child
`k` of the list receiving address `addr ++ [i + k]`. -/
def processChildren (maxDepth : Nat) (addr : List Nat) (i depth : Nat) :
    List FileTree → PipeResult
  | [] => {}
  | c :: cs =>
    let r1 := process_new_file maxDepth (addr ++ [i]) depth c
    let r2 := processChildren maxDepth addr (i + 1) depth cs
    { visited := r1.visited ++ r2.visited
      expanded := r1.expanded ++ r2.expanded
      organized := r1.organized ++ r2.organized }

end

/-- The node of `t` at address `p`, if any. -/
def nodeAt : FileTree → List Nat → Option FileTree
  | t, [] => some t
  | t, i :: rest =>
    match t with
    | .file => none
    | .archive cs =>
      match cs.get? i with
      | some c => nodeAt c rest
      | none => none

/-- Statement bundle proved about one `process_new_file` invocation:
sound and complete description of the visited addresses, soundness for
expanded and organized ones, all relative to the tree below the node. -/
def procInv (maxDepth : Nat) (addr : List Nat) (depth : Nat) (t : FileTree)
    (r : PipeResult) : Prop :=
  (∀ a ∈ r.visited, ∃ s, a = addr ++ s ∧ depth + s.length ≤ maxDepth ∧
      (nodeAt t s).isSome) ∧
  (∀ a ∈ r.expanded, ∃ s, a = addr ++ s ∧ depth + s.length ≤ maxDepth ∧
      ∃ cs, nodeAt t s = some (.archive cs)) ∧
  (∀ a ∈ r.organized, ∃ s, a = addr ++ s ∧ depth + s.length ≤ maxDepth ∧
      nodeAt t s = some .file) ∧
  (∀ s, (nodeAt t s).isSome → depth + s.length ≤ maxDepth → (addr ++ s) ∈ r.visited)

/-- Statement bundle proved about one `processChildren` invocation. -/
def childInv (maxDepth : Nat) (addr : List Nat) (i depth : Nat)
    (cs : List FileTree) (r : PipeResult) : Prop :=
  (∀ a ∈ r.visited, ∃ j c s, cs[j]? = some c ∧ a = addr ++ (i + j) :: s ∧
      depth + s.length ≤ maxDepth ∧ (nodeAt c s).isSome) ∧
  (∀ a ∈ r.expanded, ∃ j c s, cs[j]? = some c ∧ a = addr ++ (i + j) :: s ∧
      depth + s.length ≤ maxDepth ∧ ∃ ds, nodeAt c s = some (.archive ds)) ∧
  (∀ a ∈ r.organized, ∃ j c s, cs[j]? = some c ∧ a = addr ++ (i + j) :: s ∧
      depth + s.length ≤ maxDepth ∧ nodeAt c s = some .file) ∧
  (∀ j c s, cs[j]? = some c → (nodeAt c s).isSome →
      depth + s.length ≤ maxDepth → (addr ++ (i + j) :: s) ∈ r.visited)

/-- Joint motive for the functional induction over `process_new_file`. -/
def procMotive (maxDepth : Nat) (addr : List Nat) (depth : Nat)
    (t : FileTree) : Prop :=
  depth ≤ maxDepth →
    procInv maxDepth addr depth t (process_new_file maxDepth addr depth t)

/-- Joint motive for the functional induction over `processChildren`. -/
def childMotive (maxDepth : Nat) (addr : List Nat) (i depth : Nat)
    (cs : List FileTree) : Prop :=
  depth ≤ maxDepth →
    childInv maxDepth addr i depth cs (processChildren maxDepth addr i depth cs)

theorem procCaseFile (maxDepth : Nat) (addr : List Nat) (depth : Nat) :
    procMotive maxDepth addr depth .file := by
  intro hd
  refine ⟨?_, ?_, ?_, ?_⟩
  · intro a ha
    simp only [process_new_file, List.mem_singleton] at ha
    exact ⟨[], by simpa using ha, by simpa using hd, by simp [nodeAt]⟩
  · intro a ha
    simp [process_new_file] at ha
  · intro a ha
    simp only [process_new_file, List.mem_singleton] at ha
    exact ⟨[], by simpa using ha, by simpa using hd, by simp [nodeAt]⟩
  · intro s hs hlen
    match s with
    | [] => simp [process_new_file]
    | x :: s2 => simp [nodeAt] at hs

theorem procCaseStop (maxDepth : Nat) (addr : List Nat) (depth : Nat)
    (cs : List FileTree) (hstop : maxDepth ≤ depth) :
    procMotive maxDepth addr depth (.archive cs) := by
  intro hd
  refine ⟨?_, ?_, ?_, ?_⟩
  · intro a ha
    simp only [process_new_file, if_pos hstop, List.mem_singleton] at ha
    exact ⟨[], by simpa using ha, by simpa using hd, by simp [nodeAt]⟩
  · intro a ha
    simp only [process_new_file, if_pos hstop, List.mem_singleton] at ha
    exact ⟨[], by simpa using ha, by simpa using hd, cs, by simp [nodeAt]⟩
  · intro a ha
    simp [process_new_file, if_pos hstop] at ha
  · intro s hs hlen
    match s with
    | [] => simp [process_new_file, if_pos hstop]
    | x :: s2 =>
      exfalso
      simp only [List.length_cons] at hlen
      omega

theorem procCaseRec (maxDepth : Nat) (addr : List Nat) (depth : Nat)
    (cs : List FileTree) (hstop : ¬ maxDepth ≤ depth)
    (ih : childMotive maxDepth addr 0 (depth + 1) cs) :
    procMotive maxDepth addr depth (.archive cs) := by
  intro hd
  obtain ⟨hv, he, ho, hc⟩ := ih (by omega)
  refine ⟨?_, ?_, ?_, ?_⟩
  · intro a ha
    simp only [process_new_file, if_neg hstop] at ha
    rcases List.mem_cons.mp ha with rfl | ha2
    · exact ⟨[], by simp, by simpa using hd, by simp [nodeAt]⟩
    · obtain ⟨j, c, s, hget, rfl, hlen, hnode⟩ := hv a ha2
      refine ⟨j :: s, by simp, by simp only [List.length_cons]; omega, ?_⟩
      simpa [nodeAt, hget] using hnode
  · intro a ha
    simp only [process_new_file, if_neg hstop] at ha
    rcases List.mem_cons.mp ha with rfl | ha2
    · exact ⟨[], by simp, by simpa using hd, cs, by simp [nodeAt]⟩
    · obtain ⟨j, c, s, hget, rfl, hlen, hnode⟩ := he a ha2
      refine ⟨j :: s, by simp, by simp only [List.length_cons]; omega, ?_⟩
      simpa [nodeAt, hget] using hnode
  · intro a ha
    simp only [process_new_file, if_neg hstop] at ha
    obtain ⟨j, c, s, hget, rfl, hlen, hnode⟩ := ho a ha
    refine ⟨j :: s, by simp, by simp only [List.length_cons]; omega, ?_⟩
    simpa [nodeAt, hget] using hnode
  · intro s hs hlen
    match s with
    | [] => simp [process_new_file, if_neg hstop]
    | j :: s2 =>
      simp only [nodeAt, List.get?_eq_getElem?] at hs
      simp only [process_new_file, if_neg hstop]
      rcases hget : cs[j]? with _ | c
      · rw [hget] at hs; simp at hs
      · rw [hget] at hs
        have hmem := hc j c s2 hget hs
          (by simp only [List.length_cons] at hlen; omega)
        simp only [List.mem_cons]
        right
        simpa using hmem

theorem procCaseNil (maxDepth : Nat) (addr : List Nat) (i depth : Nat) :
    childMotive maxDepth addr i depth [] := by
  intro _
  refine ⟨?_, ?_, ?_, ?_⟩
  · intro a ha; simp [processChildren] at ha
  · intro a ha; simp [processChildren] at ha
  · intro a ha; simp [processChildren] at ha
  · intro j c s hget _ _; simp at hget

theorem procCaseCons (maxDepth : Nat) (addr : List Nat) (i depth : Nat)
    (c : FileTree) (cs : List FileTree)
    (ih1 : procMotive maxDepth (addr ++ [i]) depth c)
    (ih2 : childMotive maxDepth addr (i + 1) depth cs) :
    childMotive maxDepth addr i depth (c :: cs) := by
  intro hd
  obtain ⟨tvis, texp, torg, tcom⟩ := ih1 hd
  obtain ⟨hv, he, ho, hc⟩ := ih2 hd
  refine ⟨?_, ?_, ?_, ?_⟩
  · intro a ha
    simp only [processChildren, List.mem_append] at ha
    rcases ha with ha1 | ha2
    · obtain ⟨s, rfl, hlen, hnode⟩ := tvis a ha1
      exact ⟨0, c, s, by simp, by simp, hlen, hnode⟩
    · obtain ⟨j, c2, s, hget, rfl, hlen, hnode⟩ := hv a ha2
      refine ⟨j + 1, c2, s, by simpa using hget, ?_, hlen, hnode⟩
      have : i + 1 + j = i + (j + 1) := by omega
      rw [this]
  · intro a ha
    simp only [processChildren, List.mem_append] at ha
    rcases ha with ha1 | ha2
    · obtain ⟨s, rfl, hlen, hnode⟩ := texp a ha1
      exact ⟨0, c, s, by simp, by simp, hlen, hnode⟩
    · obtain ⟨j, c2, s, hget, rfl, hlen, hnode⟩ := he a ha2
      refine ⟨j + 1, c2, s, by simpa using hget, ?_, hlen, hnode⟩
      have : i + 1 + j = i + (j + 1) := by omega
      rw [this]
  · intro a ha
    simp only [processChildren, List.mem_append] at ha
    rcases ha with ha1 | ha2
    · obtain ⟨s, rfl, hlen, hnode⟩ := torg a ha1
      exact ⟨0, c, s, by simp, by simp, hlen, hnode⟩
    · obtain ⟨j, c2, s, hget, rfl, hlen, hnode⟩ := ho a ha2
      refine ⟨j + 1, c2, s, by simpa using hget, ?_, hlen, hnode⟩
      have : i + 1 + j = i + (j + 1) := by omega
      rw [this]
  · intro j c2 s hget hnode hlen
    simp only [processChildren, List.mem_append]
    match j with
    | 0 =>
      left
      obtain rfl : c = c2 := by
        simp only [List.getElem?_cons_zero] at hget
        exact (Option.some.inj hget)
      have := tcom s hnode hlen
      simpa using this
    | Nat.succ k =>
      right
      have hget2 : cs[k]? = some c2 := by simpa using hget
      have := hc k c2 s hget2 hnode hlen
      have harith : i + 1 + k = i + (k + 1) := by omega
      rw [harith] at this
      exact this

/-- Invariant of `process_new_file`, by functional induction. -/
theorem process_new_file_inv (maxDepth : Nat) (addr : List Nat) (depth : Nat)
    (t : FileTree) :
    procMotive maxDepth addr depth t :=
  process_new_file.induct maxDepth (procMotive maxDepth) (childMotive maxDepth)
    (procCaseFile maxDepth) (procCaseStop maxDepth) (procCaseRec maxDepth)
    (procCaseNil maxDepth) (procCaseCons maxDepth) addr depth t

/-- Claim C2: starting from a top-level file at depth 0, every node of the
extraction tree at nesting depth at most maxDepth is processed as its own
task; every processed task sits at depth at most maxDepth (the depth
carried along a recursion chain equals the address length, hence is
monotonically non-decreasing along the chain and never exceeds maxDepth);
an archive nested at depth maxDepth + 1 is never expanded; and an archive
is never handed to organize (nor deleted) — an over-deep archive is left
unplaced while all tasks within the depth bound are still processed. -/
theorem process_new_file_depth_bound (maxDepth : Nat) (t : FileTree) :
    (∀ a ∈ (process_new_file maxDepth [] 0 t).visited,
        (nodeAt t a).isSome ∧ a.length ≤ maxDepth) ∧
    (∀ a, (nodeAt t a).isSome → a.length ≤ maxDepth →
        a ∈ (process_new_file maxDepth [] 0 t).visited) ∧
    (∀ a ∈ (process_new_file maxDepth [] 0 t).expanded,
        (∃ cs, nodeAt t a = some (.archive cs)) ∧ a.length ≤ maxDepth) ∧
    (∀ a, (∃ cs, nodeAt t a = some (.archive cs)) → maxDepth + 1 ≤ a.length →
        a ∉ (process_new_file maxDepth [] 0 t).expanded) ∧
    (∀ a, (∃ cs, nodeAt t a = some (.archive cs)) →
        a ∉ (process_new_file maxDepth [] 0 t).organized) := by
  obtain ⟨hv, he, ho, hc⟩ := process_new_file_inv maxDepth [] 0 t (Nat.zero_le _)
  refine ⟨?_, ?_, ?_, ?_, ?_⟩
  · intro a ha
    obtain ⟨s, rfl, hlen, hnode⟩ := hv a ha
    exact ⟨by simpa using hnode, by simpa using hlen⟩
  · intro a h1 h2
    have := hc a (by simpa using h1) (by omega)
    simpa using this
  · intro a ha
    obtain ⟨s, rfl, hlen, cs, hnode⟩ := he a ha
    exact ⟨⟨cs, by simpa using hnode⟩, by simpa using hlen⟩
  · intro a _ hlen hmem
    obtain ⟨s, rfl, hlen2, _, _⟩ := he a hmem
    omega
  · intro a harch hmem
    obtain ⟨cs, harch⟩ := harch
    obtain ⟨s, rfl, _, hfile⟩ := ho a hmem
    rw [hfile] at harch
    exact FileTree.noConfusion (Option.some.inj harch)

/-- Concrete triply nested archive used to witness
`process_new_file_depth_bound`. -/
def nestedArchiveTree : FileTree := .archive [.archive [.archive [.file]]]

/-- Witness for `process_new_file_depth_bound` with maxDepth 1: the archive
at depth 1 is processed, the archive nested at depth 2 is not expanded,
and the top-level archive is never organized. -/
theorem process_new_file_depth_bound_witness :
    [0] ∈ (process_new_file 1 [] 0 nestedArchiveTree).visited ∧
    [0, 0] ∉ (process_new_file 1 [] 0 nestedArchiveTree).expanded ∧
    [0] ∉ (process_new_file 1 [] 0 nestedArchiveTree).organized :=
  ⟨(process_new_file_depth_bound 1 nestedArchiveTree).2.1 [0] (by decide) (by decide),
   (process_new_file_depth_bound 1 nestedArchiveTree).2.2.2.1 [0, 0]
     ⟨[.file], rfl⟩ (by decide),
   (process_new_file_depth_bound 1 nestedArchiveTree).2.2.2.2 [0]
     ⟨[.archive [.file]], rfl⟩⟩

/-! ## Retry with exponential backoff (`retry_operation`, orchestrator.py 28–58) -/

/-- One pass of the `for attempt in range(maxRetries)` loop of
`retry_operation`, started at index `attempt`.  The wrapped operation is a
function from the attempt index to `some` result or `none` for a raise.
Returns the overall result (`none` when the loop falls through after the
final failure), the number of invocations performed from this point on,
and the list of delays slept: orchestrator.py line 48 computes
`delay = RETRY_DELAY_BASE * RETRY_BACKOFF_MULTIPLIER ** attempt` and
line 53 sleeps it only when another attempt remains. -/
def retryLoop {α : Type} (maxRetries base mult : Nat) (op : Nat → Option α)
    (attempt : Nat) : Option α × Nat × List Nat :=
  if _h : attempt < maxRetries then
    match op attempt with
    | some v => (some v, 1, [])
    | none =>
      let delay := base * mult ^ attempt
      if attempt < maxRetries - 1 then
        let r := retryLoop maxRetries base mult op (attempt + 1)
        (r.1, r.2.1 + 1, delay :: r.2.2)
      else (none, 1, [])
  else (none, 0, [])
termination_by maxRetries - attempt

/-- `retry_operation` (orchestrator.py lines 28–58): run the loop from
attempt 0; `None` is the terminal failure returned at line 58. -/
def retry_operation {α : Type} (maxRetries base mult : Nat) (op : Nat → Option α) :
    Option α × Nat × List Nat :=
  retryLoop maxRetries base mult op 0

/-- Claim C6: under maxAttempts = 3, an operation that raises on its first
two invocations and returns a value on the third makes the wrapper return
that value after exactly three invocations, the delay slept before attempt
n (0-indexed, n ≥ 1) being baseDelay * multiplier^(n-1); and when all
three invocations raise, the wrapper returns the terminal failure None
after exactly three invocations, with the same two delays slept. -/
theorem retry_operation_spec {α : Type} (base mult : Nat) (op : Nat → Option α)
    (v : α) :
    (op 0 = none → op 1 = none → op 2 = some v →
      retry_operation 3 base mult op =
        (some v, 3, [base * mult ^ 0, base * mult ^ 1])) ∧
    (op 0 = none → op 1 = none → op 2 = none →
      retry_operation 3 base mult op =
        (none, 3, [base * mult ^ 0, base * mult ^ 1])) := by
  constructor <;> intro h0 h1 h2 <;>
    simp [retry_operation, retryLoop, h0, h1, h2]

/-- Witness for `retry_operation_spec`: a collaborator failing twice then
returning 7 on the third call, under base delay 5 and multiplier 2. -/
theorem retry_operation_spec_witness :
    retry_operation 3 5 2 (fun n => if n = 2 then some 7 else none) =
      (some 7, 3, [5 * 2 ^ 0, 5 * 2 ^ 1]) :=
  (retry_operation_spec 5 2 (fun n => if n = 2 then some 7 else none) 7).1
    rfl rfl rfl

/-! ## Antivirus gate (`scan_file`, antivirus.py lines 47–187) -/

/-- Scan configuration: `config['virus_scanning']['clamscan_path']` and
`config.get('max_scan_size', 500 * 1024 * 1024)`. -/
structure ScanCfg where
  clamscanPath : String
  maxScanSize : Nat := 524288000
deriving Repr

/-- Outcome of the clamscan subprocess call as consumed by `scan_file`:
the return code, whether a file with the source basename appeared in the
quarantine directory, and whether the source file still exists —
or one of the exceptional outcomes of `subprocess.run`. -/
inductive ClamRun where
  | res (returncode : Nat) (movedToQuarantine : Bool) (srcRemains : Bool)
  | timedOut
  | notFound
  | raised
deriving DecidableEq, Repr

/-- Environment of one `scan_file` call: the observations and side-effect
outcomes the function encounters, in source order. -/
structure ScanEnv where
  fileExists : Bool := true
  readable : Bool := true
  statOk : Bool := true
  fileSize : Nat := 0
  isEicar : Bool := false
  eicarMoveOk : Bool := true
  mkQuarantineOk : Bool := true
  clamRun : ClamRun := .res 0 false true
deriving Repr

/-- `scan_file` (antivirus.py lines 47–187).  Returns the outcome string
together with whether the external clamscan subprocess was invoked.
Checks in source order: existence, readability, file stat (on `OSError`
the size is treated as 0, line 76), the EICAR branch with its quarantine
move, quarantine-directory creation, the `"echo"` mock branch, the
large-file bypass (lines 111–116), then the real subprocess call with the
return-code decoding of lines 140–163. -/
def scan_file (cfg : ScanCfg) (env : ScanEnv) : String × Bool :=
  if ¬ env.fileExists then ("error", false)
  else if ¬ env.readable then ("error", false)
  else
    let fileSize := if env.statOk then env.fileSize else 0
    if env.isEicar then
      (if env.eicarMoveOk then ("quarantined", false) else ("error", false))
    else if ¬ env.mkQuarantineOk then ("error", false)
    else if cfg.clamscanPath = "echo" then ("clean", false)
    else if fileSize > cfg.maxScanSize then ("clean", false)
    else
      match env.clamRun with
      | .timedOut => ("error", true)
      | .notFound => ("error", true)
      | .raised => ("error", true)
      | .res rc movedQ srcRemains =>
        if movedQ then ("quarantined", true)
        else if rc = 0 then ("clean", true)
        else if rc = 1 then
          (if ¬ srcRemains then ("quarantined", true) else ("error", true))
        else ("error", true)

/-- Claim C10: for every existing, readable, statable file that is not an
EICAR test file, when a real scanner (not the `"echo"` mock) is configured
and the file size exceeds max_scan_size (default 500 MB), `scan_file`
returns "clean" without invoking the external scanner at all. -/
theorem scan_file_large_file_bypass (cfg : ScanCfg) (env : ScanEnv)
    (h1 : env.fileExists = true) (h2 : env.readable = true)
    (h3 : env.statOk = true) (h4 : env.isEicar = false)
    (h5 : env.mkQuarantineOk = true) (h6 : cfg.clamscanPath ≠ "echo")
    (h7 : env.fileSize > cfg.maxScanSize) :
    scan_file cfg env = ("clean", false) := by
  simp [scan_file, h1, h2, h3, h4, h5, h6, h7]

/-- Witness for `scan_file_large_file_bypass`: a 500 MB + 1 byte file under
the default max_scan_size and a real clamscan path. -/
theorem scan_file_large_file_bypass_witness :
    scan_file { clamscanPath := "/usr/bin/clamscan" } { fileSize := 524288001 } =
      ("clean", false) :=
  scan_file_large_file_bypass { clamscanPath := "/usr/bin/clamscan" }
    { fileSize := 524288001 } rfl rfl rfl rfl rfl (by decide) (by decide)

/-! ## SHA-256 (`hashlib.sha256`, as used by `file_hash` and friends)

A direct implementation over byte lists with `Nat` arithmetic modulo
`2^32`, validated below against the standard test vectors.  All recursion
is structural so that concrete digests evaluate inside the kernel. -/

def w32 (n : Nat) : Nat := n % 4294967296

def rotr32 (n x : Nat) : Nat := w32 ((x >>> n) ||| (x <<< (32 - n)))

def ch32 (x y z : Nat) : Nat := w32 ((x &&& y) ^^^ ((x ^^^ 4294967295) &&& z))

def maj32 (x y z : Nat) : Nat := w32 ((x &&& y) ^^^ (x &&& z) ^^^ (y &&& z))

def bsig0 (x : Nat) : Nat := w32 (rotr32 2 x ^^^ rotr32 13 x ^^^ rotr32 22 x)

def bsig1 (x : Nat) : Nat := w32 (rotr32 6 x ^^^ rotr32 11 x ^^^ rotr32 25 x)

def ssig0 (x : Nat) : Nat := w32 (rotr32 7 x ^^^ rotr32 18 x ^^^ (x >>> 3))

def ssig1 (x : Nat) : Nat := w32 (rotr32 17 x ^^^ rotr32 19 x ^^^ (x >>> 10))

/-- The 64 round constants of SHA-256 (the fractional parts of the cube
roots of the first 64 primes), in decimal. -/
def sha256K : List Nat :=
  [1116352408, 1899447441, 3049323471, 3921009573,
   961987163, 1508970993, 2453635748, 2870763221,
   3624381080, 310598401, 607225278, 1426881987,
   1925078388, 2162078206, 2614888103, 3248222580,
   3835390401, 4022224774, 264347078, 604807628,
   770255983, 1249150122, 1555081692, 1996064986,
   2554220882, 2821834349, 2952996808, 3210313671,
   3336571891, 3584528711, 113926993, 338241895,
   666307205, 773529912, 1294757372, 1396182291,
   1695183700, 1986661051, 2177026350, 2456956037,
   2730485921, 2820302411, 3259730800, 3345764771,
   3516065817, 3600352804, 4094571909, 275423344,
   430227734, 506948616, 659060556, 883997877,
   958139571, 1322822218, 1537002063, 1747873779,
   1955562222, 2024104815, 2227730452, 2361852424,
   2428436474, 2756734187, 3204031479, 3329325298]

structure Sha256Regs where
  a : Nat
  b : Nat
  c : Nat
  d : Nat
  e : Nat
  f : Nat
  g : Nat
  h : Nat
deriving Repr, DecidableEq

def sha256H0 : Sha256Regs :=
  { a := 1779033703, b := 3144134277, c := 1013904242, d := 2773480762,
    e := 1359893119, f := 2600822924, g := 528734635, h := 1541459225 }

def sha256Round (r : Sha256Regs) (k w : Nat) : Sha256Regs :=
  let t1 := w32 (r.h + bsig1 r.e + ch32 r.e r.f r.g + k + w)
  let t2 := w32 (bsig0 r.a + maj32 r.a r.b r.c)
  { a := w32 (t1 + t2), b := r.a, c := r.b, d := r.c,
    e := w32 (r.d + t1), f := r.e, g := r.f, h := r.g }

def sha256ExtendStep (ws : List Nat) : List Nat :=
  ws ++ [w32 (ssig1 (ws.getD (ws.length - 2) 0)
    + ws.getD (ws.length - 7) 0
    + ssig0 (ws.getD (ws.length - 15) 0)
    + ws.getD (ws.length - 16) 0)]

def sha256ExtendGo : Nat → List Nat → List Nat
  | 0, ws => ws
  | n + 1, ws => sha256ExtendGo n (sha256ExtendStep ws)

def sha256Extend (ws : List Nat) : List Nat := sha256ExtendGo (64 - ws.length) ws

def sha256Compress (H : Sha256Regs) (block : List Nat) : Sha256Regs :=
  let ws := sha256Extend block
  let r := (List.zip sha256K ws).foldl (fun r kw => sha256Round r kw.1 kw.2) H
  { a := w32 (H.a + r.a), b := w32 (H.b + r.b), c := w32 (H.c + r.c),
    d := w32 (H.d + r.d), e := w32 (H.e + r.e), f := w32 (H.f + r.f),
    g := w32 (H.g + r.g), h := w32 (H.h + r.h) }

def be8 (n : Nat) : List Nat := (List.range 8).map (fun i => (n >>> (8 * (7 - i))) % 256)

def sha256Pad (msg : List Nat) : List Nat :=
  let z := (119 - (msg.length % 64)) % 64
  msg ++ [128] ++ List.replicate z 0 ++ be8 (8 * msg.length)

def chunks64Go : Nat → List Nat → List (List Nat)
  | 0, _ => []
  | _, [] => []
  | fuel + 1, l => l.take 64 :: chunks64Go fuel (l.drop 64)

def chunks64 (l : List Nat) : List (List Nat) := chunks64Go l.length l

def wordsOfBlock (b : List Nat) : List Nat :=
  (List.range 16).map (fun i =>
    b.getD (4 * i) 0 * 16777216 + b.getD (4 * i + 1) 0 * 65536
      + b.getD (4 * i + 2) 0 * 256 + b.getD (4 * i + 3) 0)

def sha256Digest (msg : List Nat) : Sha256Regs :=
  (chunks64 (sha256Pad msg)).foldl (fun H b => sha256Compress H (wordsOfBlock b)) sha256H0

def hexDigits : List Char := "0123456789abcdef".data

def hexChar (n : Nat) : Char := hexDigits.getD n '0'

def hexWord32 (w : Nat) : List Char :=
  (List.range 8).map (fun i => hexChar ((w >>> (28 - 4 * i)) % 16))

def regsWords (r : Sha256Regs) : List Nat := [r.a, r.b, r.c, r.d, r.e, r.f, r.g, r.h]

def sha256hex (msg : List Nat) : String :=
  ⟨((regsWords (sha256Digest msg)).map hexWord32).flatten⟩

def strBytes (s : String) : List Nat := s.data.map Char.toNat

set_option maxRecDepth 1000000 in
/-- Validation of the implementation against the standard test vector:
the digest of the three bytes "abc". -/
theorem sha256hex_abc :
    sha256hex [97, 98, 99] =
      "ba7816bf8f01cfea414140de5dae2223b00361a396177a9cb410ff61f20015ad" := by
  decide

/-- The digest string is literally the flattened hex rendering. -/
theorem sha256hex_data (msg : List Nat) :
    (sha256hex msg).data = ((regsWords (sha256Digest msg)).map hexWord32).flatten := rfl

theorem hexWord32_length (w : Nat) : (hexWord32 w).length = 8 := by
  simp [hexWord32]

/-- Every digest is 64 characters long. -/
theorem sha256hex_length (msg : List Nat) : (sha256hex msg).length = 64 := by
  show (sha256hex msg).data.length = 64
  rw [sha256hex_data, List.length_flatten]
  simp [regsWords, hexWord32_length]

theorem hexChar_mem (n : Nat) : hexChar n ∈ hexDigits := by
  unfold hexChar
  by_cases h : n < hexDigits.length
  · rw [List.getD_eq_getElem hexDigits _ h]
    exact List.getElem_mem h
  · rw [List.getD_eq_default hexDigits _ (le_of_not_lt h)]
    decide

/-- Every character of a digest is a lower-case hexadecimal digit. -/
theorem sha256hex_chars (msg : List Nat) :
    ∀ c ∈ (sha256hex msg).data, c ∈ hexDigits := by
  intro c hc
  rw [sha256hex_data] at hc
  obtain ⟨l, hl, hcl⟩ := List.mem_flatten.mp hc
  obtain ⟨w, _, rfl⟩ := List.mem_map.mp hl
  obtain ⟨i, _, rfl⟩ := List.mem_map.mp hcl
  exact hexChar_mem _

/-! ## Content hashing (`file_hash`, organize.py lines 124–166) -/

/-- Environment of one `file_hash` call: the outcome of the first chunked
read, whether its failure (if any) was a `PermissionError`, the outcome of
the read retried after `os.chmod`, the rendering of
`os.path.getmtime(filepath)` when it succeeds, and the rendering of
`datetime.utcnow().isoformat()`.  (Python renders the float mtime into the
f-string; the rendered strings are taken as given.) -/
structure HashEnv where
  readBytes : Option (List Nat) := none
  firstFailurePerm : Bool := false
  readAfterChmod : Option (List Nat) := none
  mtimeStr : Option String := none
  nowStr : String := ""
deriving Repr

/-- `.encode()` of an ASCII string: its character codes as bytes. -/
theorem strBytes_def (s : String) : strBytes s = s.data.map Char.toNat := rfl

/-- The timestamp used by the fallback branch: the file mtime when
available, otherwise the current time (organize.py lines 156–166). -/
def fallbackStamp (env : HashEnv) : String :=
  match env.mtimeStr with
  | some t => t
  | none => env.nowStr

/-- `file_hash` (organize.py lines 124–166): hash the file bytes; on a
`PermissionError` fix permissions and retry once; if the bytes still
cannot be read (or the failure was not a permission error), fall back to
hashing the string `f"{filepath}_{mtime}"`, or `f"{filepath}_{now}"` when
even the mtime is unavailable.  Every branch returns a digest string. -/
def file_hash (fp : String) (env : HashEnv) : String :=
  match env.readBytes with
  | some bs => sha256hex bs
  | none =>
    let retried : Option String :=
      if env.firstFailurePerm then
        match env.readAfterChmod with
        | some bs => some (sha256hex bs)
        | none => none
      else none
    match retried with
    | some hv => hv
    | none =>
      match env.mtimeStr with
      | some t => sha256hex (strBytes (fp ++ "_" ++ t))
      | none => sha256hex (strBytes (fp ++ "_" ++ env.nowStr))

/-- Claim C9: `file_hash` is total — on every input it returns a
64-character string of hexadecimal digits and never raises — and when the
file bytes cannot be read even after the permission-fix retry, the
returned value is the digest of the file path combined with its
modification time (or the current time), not of the file content. -/
theorem file_hash_total_with_fallback (fp : String) (env : HashEnv) :
    (file_hash fp env).length = 64 ∧
    (∀ c ∈ (file_hash fp env).data, c ∈ hexDigits) ∧
    (env.readBytes = none →
      env.firstFailurePerm = false ∨ env.readAfterChmod = none →
      file_hash fp env = sha256hex (strBytes (fp ++ "_" ++ fallbackStamp env))) := by
  have hform : ∃ m, file_hash fp env = sha256hex m := by
    unfold file_hash
    rcases env.readBytes with _ | bs
    · by_cases hp : env.firstFailurePerm
      · rcases hr : env.readAfterChmod with _ | bs2
        · rcases env.mtimeStr with _ | t <;> simp [hp, hr]
        · simp [hp, hr]
      · rcases env.mtimeStr with _ | t <;> simp [hp]
    · exact ⟨bs, rfl⟩
  obtain ⟨m, hm⟩ := hform
  refine ⟨by rw [hm]; exact sha256hex_length m,
          by rw [hm]; exact sha256hex_chars m, ?_⟩
  intro hnone hfail
  unfold file_hash
  rw [hnone]
  have hretried :
      (if env.firstFailurePerm then
        match env.readAfterChmod with
        | some bs => some (sha256hex bs)
        | none => none
       else none) = (none : Option String) := by
    rcases hfail with hf | hr
    · simp [hf]
    · by_cases hp : env.firstFailurePerm <;> simp [hp, hr]
  rw [hretried]
  unfold fallbackStamp
  rcases env.mtimeStr with _ | t <;> simp

/-- Witness for `file_hash_total_with_fallback`: a file whose bytes cannot
be read (non-permission failure) but whose mtime renders as
"1700000000.0" — the digest hashes path and mtime, never the content. -/
theorem file_hash_total_with_fallback_witness :
    file_hash "/watch/locked.bin" { mtimeStr := some "1700000000.0" } =
      sha256hex (strBytes ("/watch/locked.bin" ++ "_" ++
        fallbackStamp { mtimeStr := some "1700000000.0" })) ∧
    (file_hash "/watch/locked.bin" { mtimeStr := some "1700000000.0" }).length = 64 :=
  ⟨(file_hash_total_with_fallback "/watch/locked.bin"
      { mtimeStr := some "1700000000.0" }).2.2 rfl (Or.inl rfl),
   (file_hash_total_with_fallback "/watch/locked.bin"
      { mtimeStr := some "1700000000.0" }).1⟩

/-! ## Organisation and deduplication (`organize.py` lines 23–440)

The filesystem is an association list from paths to file contents (byte
lists).  The fallible filesystem side effects of `organize_file` (chmod,
move, copy, remove, makedirs) are driven by an oracle recording which of
them raise, mirroring the `try/except` structure of the source. -/

/-- A pure filesystem: existing files with their byte contents. -/
abbrev Fs := List (Comps × List Nat)

def fsGet (fs : Fs) (p : Comps) : Option (List Nat) :=
  (fs.find? (fun e => e.1 == p)).map (fun e => e.2)

def fsHas (fs : Fs) (p : Comps) : Bool := (fsGet fs p).isSome

def fsErase (fs : Fs) (p : Comps) : Fs := fs.filter (fun e => !(e.1 == p))

def fsInsert (fs : Fs) (p : Comps) (c : List Nat) : Fs := fsErase fs p ++ [(p, c)]

/-! ### `sanitize_filename` (organize.py lines 23–61)

The `unicodedata.normalize('NFKD', ...)` call — an external Unicode
library transform that is the identity on ASCII names — is not modelled;
everything after it is. -/

/-- Keep characters with code point at least 32 (control-character strip,
line 37). -/
def isCtrlFree (c : Char) : Bool := 32 ≤ c.toNat

/-- The problematic characters replaced by underscores (line 40). -/
def problematicChars : List Char := ['<', '>', ':', '"', '|', '?', '*', '\\', '/']

def replaceProblematic (c : Char) : Char :=
  if problematicChars.contains c then '_' else c

/-- Character class of the run-collapsing regex `[_\s\.]+` (line 45). -/
def isRunChar (c : Char) : Bool := c == '_' || c == '.' || c.isWhitespace

/-- `re.sub(r'[_\s\.]+', lambda m: '_' if '_' in m.group() else
m.group()[0], filename)`: each maximal run of underscore, whitespace and
dot characters becomes `_` when the run contains an underscore and its
first character otherwise. -/
def collapseRunsGo : Nat → List Char → List Char
  | 0, _ => []
  | _, [] => []
  | fuel + 1, c :: rest =>
    if isRunChar c then
      let run := (c :: rest).takeWhile isRunChar
      let rep := if run.contains '_' then '_' else c
      rep :: collapseRunsGo fuel ((c :: rest).dropWhile isRunChar)
    else c :: collapseRunsGo fuel rest

def collapseRuns (l : List Char) : List Char := collapseRunsGo l.length l

/-- `filename.strip(' .')` (line 48). -/
def isStripChar (c : Char) : Bool := c == ' ' || c == '.'

def stripEnds (l : List Char) : List Char :=
  ((l.dropWhile isStripChar).reverse.dropWhile isStripChar).reverse

/-- The reserved device names of line 51. -/
def reservedNames : List String :=
  ["con", "prn", "aux", "nul",
   "com1", "com2", "com3", "com4", "com5", "com6", "com7", "com8", "com9",
   "lpt1", "lpt2", "lpt3", "lpt4", "lpt5", "lpt6", "lpt7", "lpt8", "lpt9"]

/-- `str.lower()` on ASCII strings. -/
def lowerStr (s : String) : String := ⟨s.data.map Char.toLower⟩

/-- The split position of `os.path.splitext` on a bare filename: the last
dot that has some non-dot character before it (leading dots never start an
extension). -/
def extSplitPos (cs : List Char) : Option Nat :=
  ((List.range cs.length).filter (fun i =>
    cs.getD i ' ' == '.' && (List.range i).any (fun j => !(cs.getD j ' ' == '.')))).getLast?

/-- `os.path.splitext` on a bare filename. -/
def splitext (s : String) : String × String :=
  match extSplitPos s.data with
  | some i => (⟨s.data.take i⟩, ⟨s.data.drop i⟩)
  | none => (s, "")

/-- `sanitize_filename` (organize.py lines 23–61).  `timeName` stands for
the replacement name `f"file_{int(time.time())}"` substituted when the
sanitised name is empty or an OS-reserved device name. -/
def sanitize_filename (timeName : String) (filename : String) : String :=
  let s1 : List Char := filename.data.filter isCtrlFree
  let s2 : List Char := s1.map replaceProblematic
  let s3 : List Char := collapseRuns s2
  let s4 : String := ⟨stripEnds s3⟩
  let s5 : String :=
    if s4 = "" ∨ reservedNames.contains (lowerStr s4) then timeName else s4
  let ne := splitext s5
  let maxNameLength : Nat := 240 - ne.2.length
  if ne.1.length > maxNameLength then ⟨ne.1.data.take maxNameLength⟩ ++ ne.2 else s5

/-- The Springfield detection patterns (organize.py lines 68–78). -/
def springfieldPatterns : List String :=
  ["springfield", "spring_field", "spring-field", "simpsons", "homer",
   "marge", "bart", "lisa", "maggie"]

/-- `hay` begins with `pat`. -/
def startsList : List Char → List Char → Bool
  | [], _ => true
  | _ :: _, [] => false
  | p :: ps, h :: hs => p == h && startsList ps hs

/-- Python `pat in hay` substring containment. -/
def containsSub (hay pat : List Char) : Bool :=
  match hay with
  | [] => startsList pat []
  | _ :: t => startsList pat hay || containsSub t pat

/-- `is_springfield_file` (organize.py lines 63–84) on the lower-cased
basename. -/
def is_springfield_file (baseName : String) : Bool :=
  springfieldPatterns.any (fun p => containsSub (lowerStr baseName).data p.data)

def IMAGE_EXTENSIONS : List String :=
  [".png", ".jpg", ".jpeg", ".tiff", ".tif", ".bmp", ".gif", ".webp", ".svg",
   ".ico", ".raw", ".heic", ".heif", ".cr2", ".nef", ".arw", ".dng"]

def archiveExtensions : List String :=
  [".zip", ".rar", ".7z", ".tar", ".gz", ".bz2", ".xz"]

def documentExtensions : List String :=
  [".pdf", ".doc", ".docx", ".xls", ".xlsx", ".ppt", ".pptx", ".txt", ".rtf", ".odt"]

def videoExtensions : List String :=
  [".mp4", ".avi", ".mkv", ".mov", ".wmv", ".flv", ".webm", ".m4v"]

def audioExtensions : List String :=
  [".mp3", ".wav", ".flac", ".aac", ".ogg", ".wma", ".m4a"]

/-- Configuration of `organize_file`: the organized root directory, the
time-based replacement name of `sanitize_filename`, and the two external
collaborators of the default branch — `extract_text` (pdfminer / python-docx /
pytesseract, organize.py lines 168–193) and `extract_sender_and_date`
(the `EMAIL_RE`/`DATE_RE` regex search with `strptime` date normalisation,
lines 195–219).  Both are pure functions of the extracted text and are
carried as parameters; no claim under scrutiny exercises them. -/
structure OrgCfg where
  orgDir : Comps
  timeName : String := "file_0"
  textOf : List Nat → String := fun _ => ""
  senderDate : String → String × String := fun _ => ("UnknownSender", "UnknownDate")

/-- `re.sub(r"[^a-zA-Z0-9@._-]", "_", sender)[:100]` (line 305). -/
def sanitizeSender (s : String) : String :=
  ⟨(s.data.map (fun c =>
      if c.isAlpha || c.isDigit || c == '@' || c == '.' || c == '_' || c == '-'
      then c else '_')).take 100⟩

/-- The category decision of `organize_file` (organize.py lines 264–312):
first match wins among image extensions, Springfield keywords (on the
original basename), archive, document, video and audio extensions; the
default branch derives `<sender>/<date>` from the extracted text.  The
extension is taken from the sanitised name, lower-cased (line 260). -/
def categoryDir (cfg : OrgCfg) (origBaseName safeName : String)
    (content : List Nat) : Comps :=
  let ext := lowerStr (splitext safeName).2
  if IMAGE_EXTENSIONS.contains ext then cfg.orgDir ++ ["Photos"]
  else if is_springfield_file origBaseName then cfg.orgDir ++ ["Springfield"]
  else if archiveExtensions.contains ext then cfg.orgDir ++ ["Archives"]
  else if documentExtensions.contains ext then cfg.orgDir ++ ["Documents"]
  else if videoExtensions.contains ext then cfg.orgDir ++ ["Videos"]
  else if audioExtensions.contains ext then cfg.orgDir ++ ["Audio"]
  else
    let sd := cfg.senderDate (cfg.textOf content)
    cfg.orgDir ++ [sanitizeSender sd.1, sd.2]

/-- Length of the string rendering of an absolute path: one separator per
component plus the component lengths. -/
def pathStrLen (p : Comps) : Nat := p.foldl (fun a s => a + 1 + s.length) 0

/-- The destination filename with the very-long-path truncation of
organize.py lines 328–345: `f"{hash8}_{safeName}"`, truncated when the
full path exceeds 250 characters (`max_name_len` uses Python integers, so
it may go negative, in which case only the hash and extension remain). -/
def destNameFor (destDir : Comps) (hash8 safeName : String) : String :=
  let destName := hash8 ++ "_" ++ safeName
  if pathStrLen (destDir ++ [destName]) > 250 then
    let ne := splitext safeName
    let maxNameLen : Int :=
      250 - (pathStrLen destDir : Int) - 8 - (ne.2.length : Int) - 10
    if maxNameLen > 0 then hash8 ++ "_" ++ ⟨ne.1.data.take maxNameLen.toNat⟩ ++ ne.2
    else hash8 ++ ne.2
  else destName

/-- The `while counter < 1000` unique-suffix loop of organize.py lines
376–388, fuelled for structural recursion (1000 units of fuel cover every
reachable iteration). -/
def suffixLoopGo (fs : Fs) (destDir : Comps) (namePart extPart : String) :
    Nat → Nat → Option Comps
  | 0, _ => none
  | fuel + 1, counter =>
    if counter < 1000 then
      let uniquePath := destDir ++ [namePart ++ "_" ++ toString counter ++ extPart]
      if fsHas fs uniquePath then
        suffixLoopGo fs destDir namePart extPart fuel (counter + 1)
      else some uniquePath
    else none

/-- The unique-name search started at counter 1 on
`name_part, ext_part = os.path.splitext(dest_name)`. -/
def findUniquePath (fs : Fs) (destDir : Comps) (destName : String) : Option Comps :=
  let ne := splitext destName
  suffixLoopGo fs destDir ne.1 ne.2 1000 1

/-- Outcome of one fallible Python operation: success, `PermissionError`,
other `OSError`, or any other exception. -/
inductive PyRes where
  | ok
  | permErr
  | osErr
  | otherErr
deriving DecidableEq, Repr

/-- The side-effect oracle of one `organize_file` call, field per
`try/except` site in source order. -/
structure OrgOracle where
  readOk : Bool := true
  mkdirOk : Bool := true
  mkdirFallbackOk : Bool := true
  dupRemove1 : PyRes := .ok
  dupRemove2ok : Bool := true
  move1 : PyRes := .ok
  move2ok : Bool := true
  copyOk : Bool := true
  removeOk : Bool := true
deriving Repr

/-- The move steps attempted while placing a file. -/
inductive MvStep where
  | tryMove
  | chmodSrc
  | tryMoveAgain
  | copyToDest
  | removeSrc
deriving DecidableEq, Repr

/-- The move phase of `organize_file` (organize.py lines 394–435): try
`shutil.move`; on `PermissionError` chmod the source and retry the move
(any failure of the retry aborts — NO copy fallback on this path); on any
other `OSError` fall back to `shutil.copy2` plus `os.remove`; on any other
exception abort.  Success is declared only after verifying that the
destination exists and the source does not (lines 429–435).  Returns the
outcome, the resulting filesystem, and the list of steps attempted. -/
def movePhase (fs : Fs) (src dest : Comps) (content : List Nat)
    (ora : OrgOracle) : Option Comps × Fs × List MvStep :=
  match ora.move1 with
  | .ok =>
    let fs2 := fsInsert (fsErase fs src) dest content
    (if fsHas fs2 dest && !(fsHas fs2 src) then some dest else none,
     fs2, [.tryMove])
  | .permErr =>
    if ora.move2ok then
      let fs2 := fsInsert (fsErase fs src) dest content
      (if fsHas fs2 dest && !(fsHas fs2 src) then some dest else none,
       fs2, [.tryMove, .chmodSrc, .tryMoveAgain])
    else (none, fs, [.tryMove, .chmodSrc, .tryMoveAgain])
  | .osErr =>
    if ora.copyOk then
      let fsC := fsInsert fs dest content
      if ora.removeOk then
        let fs2 := fsErase fsC src
        (if fsHas fs2 dest && !(fsHas fs2 src) then some dest else none,
         fs2, [.tryMove, .copyToDest, .removeSrc])
      else (none, fsC, [.tryMove, .copyToDest, .removeSrc])
    else (none, fs, [.tryMove, .copyToDest])
  | .otherErr => (none, fs, [.tryMove])

/-- `organize_file` (organize.py lines 221–440) over the pure filesystem.
`file_hash` on the readable source reduces to the digest of its bytes (the
success branch of `file_hash`; the `if not hash_val` guard at line 256 can
never fire since a digest is never empty).  Category routing, destination
naming, duplicate handling with hash recomputation, bounded suffix search
and the move phase follow the source line by line. -/
def organize_file (cfg : OrgCfg) (ora : OrgOracle) (fs : Fs)
    (srcDir : Comps) (baseName : String) : Option Comps × Fs :=
  let src := srcDir ++ [baseName]
  match fsGet fs src with
  | none => (none, fs)
  | some content =>
    if ora.readOk then
      let safeName := sanitize_filename cfg.timeName baseName
      let hashVal := sha256hex content
      let destDir0 := categoryDir cfg baseName safeName content
      match (if ora.mkdirOk then some destDir0
             else if ora.mkdirFallbackOk then some (cfg.orgDir ++ ["Unsorted"])
             else none) with
      | none => (none, fs)
      | some destDir =>
        let hash8 : String := ⟨hashVal.data.take 8⟩
        let destName := destNameFor destDir hash8 safeName
        let destPath := destDir ++ [destName]
        match fsGet fs destPath with
        | some existing =>
          if sha256hex existing == hashVal then
            match ora.dupRemove1 with
            | .ok => (some destPath, fsErase fs src)
            | .permErr =>
              if ora.dupRemove2ok then (some destPath, fsErase fs src)
              else (none, fs)
            | .osErr => (none, fs)
            | .otherErr => (none, fs)
          else
            match findUniquePath fs destDir destName with
            | none => (none, fs)
            | some uniquePath =>
              let r := movePhase fs src uniquePath content ora
              (r.1, r.2.1)
        | none =>
          let r := movePhase fs src destPath content ora
          (r.1, r.2.1)
    else (none, fs)

/-- The destination directory `organize_file` computes for a file (the
`mkdirOk` branch). -/
def destDirFor (cfg : OrgCfg) (baseName : String) (content : List Nat) : Comps :=
  categoryDir cfg baseName (sanitize_filename cfg.timeName baseName) content

/-- The destination path `organize_file` computes for a file before
duplicate handling. -/
def destPathFor (cfg : OrgCfg) (baseName : String) (content : List Nat) : Comps :=
  let safeName := sanitize_filename cfg.timeName baseName
  let destDir := destDirFor cfg baseName content
  destDir ++ [destNameFor destDir ⟨(sha256hex content).data.take 8⟩ safeName]

end SDO

namespace SDO

/-! ### Association-list filesystem lemmas -/

theorem find?_filter_of_imp {α : Type} (l : List α) (pr f : α → Bool)
    (h : ∀ x, pr x = true → f x = true) :
    (l.filter f).find? pr = l.find? pr := by
  induction l with
  | nil => simp
  | cons a t ih =>
    by_cases hf : f a = true
    · by_cases hp : pr a = true
      · simp [hf, hp, List.find?_cons]
      · simp only [List.filter_cons, hf, if_true]
        simp [List.find?_cons, hp, ih]
    · have hp : pr a = false := by
        rcases hpa : pr a with _ | _
        · rfl
        · exact absurd (h a hpa) hf
      simp [List.filter_cons, hf, List.find?_cons, hp, ih]

theorem find?_erase_self (fs : Fs) (p : Comps) :
    (fsErase fs p).find? (fun e => e.1 == p) = none := by
  rw [List.find?_eq_none]
  intro x hx
  have := (List.mem_filter.mp hx).2
  simpa using this

theorem find?_erase_ne (fs : Fs) (p q : Comps) (h : q ≠ p) :
    (fsErase fs p).find? (fun e => e.1 == q) = fs.find? (fun e => e.1 == q) := by
  apply find?_filter_of_imp
  intro x hx
  have hq : x.1 = q := by simpa using hx
  simp [hq, h]

theorem fsGet_erase_self (fs : Fs) (p : Comps) : fsGet (fsErase fs p) p = none := by
  unfold fsGet
  rw [find?_erase_self]
  rfl

theorem fsGet_erase_ne (fs : Fs) (p q : Comps) (h : q ≠ p) :
    fsGet (fsErase fs p) q = fsGet fs q := by
  unfold fsGet
  rw [find?_erase_ne fs p q h]

theorem fsGet_insert_self (fs : Fs) (p : Comps) (c : List Nat) :
    fsGet (fsInsert fs p c) p = some c := by
  unfold fsGet fsInsert
  rw [List.find?_append, find?_erase_self]
  simp [List.find?]

theorem fsGet_insert_ne (fs : Fs) (p q : Comps) (c : List Nat) (h : q ≠ p) :
    fsGet (fsInsert fs p c) q = fsGet fs q := by
  unfold fsGet fsInsert
  rw [List.find?_append, find?_erase_ne fs p q h]
  have hb : (p == q) = false := beq_eq_false_iff_ne.mpr (Ne.symm h)
  simp [List.find?, hb]

end SDO

namespace SDO

/-- Claim C4 (amended): when the computed destination path of a file
already exists and the recomputed hash of the existing file equals the
incoming file hash, `organize_file` deletes the source and returns the
existing destination path, adding nothing to the filesystem — so a file
byte-identical to an already-organized file WITH THE SAME FILENAME leaves
exactly one surviving copy.  (Byte-identical files with different names
compute different destination paths and are both placed — see the
counterexample.) -/
theorem organize_duplicate_same_destination (cfg : OrgCfg) (ora : OrgOracle)
    (fs : Fs) (srcDir : Comps) (baseName : String) (content cD : List Nat)
    (hread : ora.readOk = true) (hmk : ora.mkdirOk = true)
    (hdup : ora.dupRemove1 = .ok)
    (hsrc : fsGet fs (srcDir ++ [baseName]) = some content)
    (hdest : fsGet fs (destPathFor cfg baseName content) = some cD)
    (hhash : sha256hex cD = sha256hex content) :
    organize_file cfg ora fs srcDir baseName =
      (some (destPathFor cfg baseName content),
       fsErase fs (srcDir ++ [baseName])) := by
  have hdest2 : fsGet fs
      (categoryDir cfg baseName (sanitize_filename cfg.timeName baseName) content ++
        [destNameFor
          (categoryDir cfg baseName (sanitize_filename cfg.timeName baseName) content)
          ⟨(sha256hex content).data.take 8⟩
          (sanitize_filename cfg.timeName baseName)]) = some cD := by
    simpa [destPathFor, destDirFor] using hdest
  unfold organize_file
  simp only [hsrc, hread, hmk, hdup, if_true, hdest2, hhash]
  simp [destPathFor, destDirFor]

/-- Configuration shared by the concrete organize runs. -/
def dedupCfg : OrgCfg := { orgDir := ["data", "organized"] }

/-- Two byte-identical inbox files with different names. -/
def dedupFs : Fs := [(["watch", "a.txt"], [104, 105]), (["watch", "b.txt"], [104, 105])]

set_option maxRecDepth 1000000 in
/-- Claim C4 counterexample: organizing two byte-identical files that have
different names produces TWO surviving copies in the organized tree — the
destination filename embeds the original (sanitised) name, so the second
file computes a different destination, never hits the duplicate branch,
and is placed as a second permanent copy, contradicting the claim that
two byte-identical files always leave exactly one surviving copy. -/
theorem organize_identical_bytes_two_copies :
    (organize_file dedupCfg {} dedupFs ["watch"] "a.txt").1 =
      some ["data", "organized", "Documents", "8f434346_a.txt"] ∧
    (organize_file dedupCfg {}
        (organize_file dedupCfg {} dedupFs ["watch"] "a.txt").2 ["watch"] "b.txt").1 =
      some ["data", "organized", "Documents", "8f434346_b.txt"] ∧
    fsGet (organize_file dedupCfg {}
        (organize_file dedupCfg {} dedupFs ["watch"] "a.txt").2 ["watch"] "b.txt").2
      ["data", "organized", "Documents", "8f434346_a.txt"] = some [104, 105] ∧
    fsGet (organize_file dedupCfg {}
        (organize_file dedupCfg {} dedupFs ["watch"] "a.txt").2 ["watch"] "b.txt").2
      ["data", "organized", "Documents", "8f434346_b.txt"] = some [104, 105] ∧
    (["data", "organized", "Documents", "8f434346_a.txt"] : Comps) ≠
      ["data", "organized", "Documents", "8f434346_b.txt"] := by
  decide

/-- A filesystem where the destination of inbox file a.txt is already
occupied by an identical copy. -/
def dedupSameFs : Fs :=
  [(["inbox", "a.txt"], [104, 105]),
   (["data", "organized", "Documents", "8f434346_a.txt"], [104, 105])]

set_option maxRecDepth 1000000 in
/-- Witness for `organize_duplicate_same_destination`: the incoming
duplicate is deleted and the existing path returned, with no new copy. -/
theorem organize_duplicate_same_destination_witness :
    organize_file dedupCfg {} dedupSameFs ["inbox"] "a.txt" =
      (some (destPathFor dedupCfg "a.txt" [104, 105]),
       fsErase dedupSameFs ["inbox", "a.txt"]) :=
  organize_duplicate_same_destination dedupCfg {} dedupSameFs ["inbox"] "a.txt"
    [104, 105] [104, 105] rfl rfl rfl (by decide) (by decide) rfl

end SDO

namespace SDO

/-- A source file used in the concrete move-phase runs. -/
def moveFs : Fs := [(["watch", "m.bin"], [1])]

/-- The oracle of a move whose first attempt raises `PermissionError` and
whose post-chmod retry raises as well. -/
def movePermOracle : OrgOracle := { move1 := .permErr, move2ok := false }

/-- Claim C7 counterexample: on a permission failure `organize_file` does
NOT fall back to copy-then-delete-source — it fixes permissions and
retries the move, and when that retry also fails the operation aborts
without ever attempting a copy, contradicting the claim that a permission
failure falls back to copy-then-delete. -/
theorem organize_perm_failure_no_copy_fallback :
    movePhase moveFs ["watch", "m.bin"] ["org", "m.bin"] [1] movePermOracle =
      (none, moveFs, [.tryMove, .chmodSrc, .tryMoveAgain]) ∧
    MvStep.copyToDest ∉
      (movePhase moveFs ["watch", "m.bin"] ["org", "m.bin"] [1] movePermOracle).2.2 := by
  decide

/-- Claim C7 (amended): placing a file attempts the direct move first; on
a `PermissionError` it chmods the source and retries the move (never
copying); on another `OSError` (e.g. cross-device) it falls back to
copy-then-delete-source; and it declares success (returns the destination)
only when the resulting filesystem has the destination present and the
source absent. -/
theorem organize_move_semantics (fs : Fs) (src dest : Comps)
    (content : List Nat) (ora : OrgOracle) :
    ((movePhase fs src dest content ora).2.2.head? = some MvStep.tryMove) ∧
    (ora.move1 = .osErr → ora.copyOk = true →
      MvStep.copyToDest ∈ (movePhase fs src dest content ora).2.2 ∧
      MvStep.removeSrc ∈ (movePhase fs src dest content ora).2.2) ∧
    (ora.move1 = .permErr →
      MvStep.copyToDest ∉ (movePhase fs src dest content ora).2.2 ∧
      MvStep.chmodSrc ∈ (movePhase fs src dest content ora).2.2 ∧
      MvStep.tryMoveAgain ∈ (movePhase fs src dest content ora).2.2) ∧
    (∀ p, (movePhase fs src dest content ora).1 = some p →
      p = dest ∧
      fsHas (movePhase fs src dest content ora).2.1 dest = true ∧
      fsHas (movePhase fs src dest content ora).2.1 src = false) := by
  rcases hm : ora.move1 with _ | _ | _ | _
  · refine ⟨by simp [movePhase, hm], by simp [hm], by simp [hm], ?_⟩
    intro p hp
    simp only [movePhase, hm] at hp ⊢
    rcases hok : (fsHas (fsInsert (fsErase fs src) dest content) dest &&
        !fsHas (fsInsert (fsErase fs src) dest content) src) with _ | _
    · rw [hok] at hp; simp at hp
    · rw [hok] at hp
      simp only [if_true] at hp
      obtain rfl : dest = p := by simpa using hp
      have hb := hok
      rw [Bool.and_eq_true] at hb
      exact ⟨rfl, hb.1, by simpa using hb.2⟩
  · by_cases h2 : ora.move2ok = true
    · refine ⟨by simp [movePhase, hm, h2], by simp [hm], ?_, ?_⟩
      · simp [movePhase, hm, h2]
      · intro p hp
        simp only [movePhase, hm, h2, if_true] at hp ⊢
        rcases hok : (fsHas (fsInsert (fsErase fs src) dest content) dest &&
            !fsHas (fsInsert (fsErase fs src) dest content) src) with _ | _
        · rw [hok] at hp; simp at hp
        · rw [hok] at hp
          simp only [if_true] at hp
          obtain rfl : dest = p := by simpa using hp
          have hb := hok
          rw [Bool.and_eq_true] at hb
          exact ⟨rfl, hb.1, by simpa using hb.2⟩
    · have h2f : ora.move2ok = false := by simpa using h2
      refine ⟨by simp [movePhase, hm, h2f], by simp [hm], ?_, ?_⟩
      · simp [movePhase, hm, h2f]
      · intro p hp
        simp [movePhase, hm, h2f] at hp
  · by_cases hc : ora.copyOk = true
    · by_cases hr : ora.removeOk = true
      · refine ⟨by simp [movePhase, hm, hc, hr], by simp [movePhase, hm, hc, hr],
          by simp [hm], ?_⟩
        intro p hp
        simp only [movePhase, hm, hc, hr, if_true] at hp ⊢
        rcases hok : (fsHas (fsErase (fsInsert fs dest content) src) dest &&
            !fsHas (fsErase (fsInsert fs dest content) src) src) with _ | _
        · rw [hok] at hp; simp at hp
        · rw [hok] at hp
          simp only [if_true] at hp
          obtain rfl : dest = p := by simpa using hp
          have hb := hok
          rw [Bool.and_eq_true] at hb
          exact ⟨rfl, hb.1, by simpa using hb.2⟩
      · have hrf : ora.removeOk = false := by simpa using hr
        refine ⟨by simp [movePhase, hm, hc, hrf], by simp [movePhase, hm, hc, hrf],
          by simp [hm], ?_⟩
        intro p hp
        simp [movePhase, hm, hc, hrf] at hp
    · have hcf : ora.copyOk = false := by simpa using hc
      refine ⟨by simp [movePhase, hm, hcf], by simp [hcf], by simp [hm], ?_⟩
      intro p hp
      simp [movePhase, hm, hcf] at hp
  · refine ⟨by simp [movePhase, hm], by simp [hm], by simp [hm], ?_⟩
    intro p hp
    simp [movePhase, hm] at hp

/-- Witness for `organize_move_semantics`: a cross-device (`OSError`) move
falls back to copy and delete, and a successful direct move ends with the
destination present and the source gone. -/
theorem organize_move_semantics_witness :
    MvStep.copyToDest ∈
      (movePhase moveFs ["watch", "m.bin"] ["org", "m.bin"] [1]
        { move1 := .osErr }).2.2 ∧
    fsHas (movePhase moveFs ["watch", "m.bin"] ["org", "m.bin"] [1] {}).2.1
      ["org", "m.bin"] = true ∧
    fsHas (movePhase moveFs ["watch", "m.bin"] ["org", "m.bin"] [1] {}).2.1
      ["watch", "m.bin"] = false :=
  ⟨((organize_move_semantics moveFs ["watch", "m.bin"] ["org", "m.bin"] [1]
      { move1 := .osErr }).2.1 rfl rfl).1,
   ((organize_move_semantics moveFs ["watch", "m.bin"] ["org", "m.bin"] [1]
      {}).2.2.2 ["org", "m.bin"] (by decide)).2.1,
   ((organize_move_semantics moveFs ["watch", "m.bin"] ["org", "m.bin"] [1]
      {}).2.2.2 ["org", "m.bin"] (by decide)).2.2⟩

end SDO

namespace SDO

/-- The suffix loop returns the first free suffixed path: running from
`counter` with enough fuel, if `k0` is free, every suffix from `counter`
up to `k0` is taken, and `k0` is within the ceiling, the loop lands on
`k0`. -/
theorem suffixLoopGo_finds (fs : Fs) (destDir : Comps) (np ep : String)
    (k0 : Nat) (fuel : Nat) :
    ∀ counter, counter ≤ k0 → k0 < counter + fuel → k0 ≤ 999 →
      fsHas fs (destDir ++ [np ++ "_" ++ toString k0 ++ ep]) = false →
      (∀ j, counter ≤ j → j < k0 →
        fsHas fs (destDir ++ [np ++ "_" ++ toString j ++ ep]) = true) →
      suffixLoopGo fs destDir np ep fuel counter =
        some (destDir ++ [np ++ "_" ++ toString k0 ++ ep]) := by
  induction fuel with
  | zero =>
    intro counter h1 h2 _ _ _
    omega
  | succ fuel ih =>
    intro counter h1 h2 h3 hfree htaken
    by_cases hck : counter = k0
    · subst hck
      simp [suffixLoopGo, show counter < 1000 by omega, hfree]
    · have hlt : counter < k0 := by omega
      have htk := htaken counter (le_refl _) hlt
      simp only [suffixLoopGo]
      rw [if_pos (show counter < 1000 by omega)]
      simp only [htk, if_true]
      exact ih (counter + 1) (by omega) (by omega) h3 hfree
        (fun j hj1 hj2 => htaken j (by omega) hj2)

/-- The suffix loop fails when every suffix up to the ceiling is taken. -/
theorem suffixLoopGo_exhausted (fs : Fs) (destDir : Comps) (np ep : String)
    (fuel : Nat) :
    ∀ counter, 1000 ≤ counter + fuel →
      (∀ j, counter ≤ j → j ≤ 999 →
        fsHas fs (destDir ++ [np ++ "_" ++ toString j ++ ep]) = true) →
      suffixLoopGo fs destDir np ep fuel counter = none := by
  induction fuel with
  | zero => intro counter _ _; rfl
  | succ fuel ih =>
    intro counter hcb htaken
    by_cases hc : counter < 1000
    · have htk := htaken counter (le_refl _) (by omega)
      simp only [suffixLoopGo]
      rw [if_pos hc]
      simp only [htk, if_true]
      exact ih (counter + 1) (by omega) (fun j h1 h2 => htaken j (by omega) h2)
    · simp [suffixLoopGo, hc]

/-- The suffixed destination path `organize_file` tries at counter `k` for
a collision of `baseName`/`content` (the `mkdirOk` branch). -/
def suffixPathFor (cfg : OrgCfg) (baseName : String) (content : List Nat)
    (k : Nat) : Comps :=
  let destDir := destDirFor cfg baseName content
  let ne := splitext (destNameFor destDir ⟨(sha256hex content).data.take 8⟩
    (sanitize_filename cfg.timeName baseName))
  destDir ++ [ne.1 ++ "_" ++ toString k ++ ne.2]

/-- Claim C8: when the computed destination exists with a different
content hash, `organize_file` appends numeric suffixes `_1`, `_2`, … until
a free path is found — landing on the FIRST free suffix — and moves the
file there; when every suffix up to the ceiling (999) is taken, the
operation fails and the filesystem is untouched, rather than looping
unboundedly. -/
theorem organize_collision_suffix_search (cfg : OrgCfg) (ora : OrgOracle)
    (fs : Fs) (srcDir : Comps) (baseName : String) (content cD : List Nat)
    (hread : ora.readOk = true) (hmk : ora.mkdirOk = true)
    (hmove : ora.move1 = .ok)
    (hsrc : fsGet fs (srcDir ++ [baseName]) = some content)
    (hdest : fsGet fs (destPathFor cfg baseName content) = some cD)
    (hdiff : (sha256hex cD == sha256hex content) = false) :
    (∀ k0, 1 ≤ k0 → k0 ≤ 999 →
      fsHas fs (suffixPathFor cfg baseName content k0) = false →
      (∀ j, 1 ≤ j → j < k0 →
        fsHas fs (suffixPathFor cfg baseName content j) = true) →
      srcDir ++ [baseName] ≠ suffixPathFor cfg baseName content k0 →
      organize_file cfg ora fs srcDir baseName =
        (some (suffixPathFor cfg baseName content k0),
         fsInsert (fsErase fs (srcDir ++ [baseName]))
           (suffixPathFor cfg baseName content k0) content)) ∧
    ((∀ j, 1 ≤ j → j ≤ 999 →
        fsHas fs (suffixPathFor cfg baseName content j) = true) →
      organize_file cfg ora fs srcDir baseName = (none, fs)) := by
  have hdest2 : fsGet fs
      (categoryDir cfg baseName (sanitize_filename cfg.timeName baseName) content ++
        [destNameFor
          (categoryDir cfg baseName (sanitize_filename cfg.timeName baseName) content)
          ⟨(sha256hex content).data.take 8⟩
          (sanitize_filename cfg.timeName baseName)]) = some cD := by
    simpa [destPathFor, destDirFor] using hdest
  constructor
  · intro k0 hk1 hk9 hfree htaken hne
    have hloop : findUniquePath fs
        (categoryDir cfg baseName (sanitize_filename cfg.timeName baseName) content)
        (destNameFor
          (categoryDir cfg baseName (sanitize_filename cfg.timeName baseName) content)
          ⟨(sha256hex content).data.take 8⟩
          (sanitize_filename cfg.timeName baseName)) =
        some (suffixPathFor cfg baseName content k0) := by
      unfold findUniquePath
      exact suffixLoopGo_finds fs _ _ _ k0 1000 1 hk1 (by omega) hk9
        (by simpa [suffixPathFor, destDirFor] using hfree)
        (fun j hj1 hj2 => by
          simpa [suffixPathFor, destDirFor] using htaken j hj1 hj2)
    unfold organize_file
    simp only [hsrc, hread, hmk, if_true, hdest2, hdiff, hloop]
    simp only [movePhase, hmove]
    have hht : fsHas (fsInsert (fsErase fs (srcDir ++ [baseName]))
        (suffixPathFor cfg baseName content k0) content)
        (suffixPathFor cfg baseName content k0) = true := by
      unfold fsHas
      rw [fsGet_insert_self]
      rfl
    have hhs : fsHas (fsInsert (fsErase fs (srcDir ++ [baseName]))
        (suffixPathFor cfg baseName content k0) content)
        (srcDir ++ [baseName]) = false := by
      unfold fsHas
      rw [fsGet_insert_ne _ _ _ _ hne, fsGet_erase_self]
      rfl
    simp only [suffixPathFor, destDirFor] at hht hhs
    simp [hht, hhs, suffixPathFor, destDirFor]
  · intro htaken
    have hloop : findUniquePath fs
        (categoryDir cfg baseName (sanitize_filename cfg.timeName baseName) content)
        (destNameFor
          (categoryDir cfg baseName (sanitize_filename cfg.timeName baseName) content)
          ⟨(sha256hex content).data.take 8⟩
          (sanitize_filename cfg.timeName baseName)) = none := by
      unfold findUniquePath
      exact suffixLoopGo_exhausted fs _ _ _ 1000 1 (by omega)
        (fun j hj1 hj2 => by
          simpa [suffixPathFor, destDirFor] using htaken j hj1 hj2)
    unfold organize_file
    simp only [hsrc, hread, hmk, if_true, hdest2, hdiff, hloop]
    simp

end SDO

namespace SDO

/-- A filesystem where the destination of inbox file a.txt is occupied by
DIFFERENT bytes, with the `_1` suffix free. -/
def collisionFs : Fs :=
  [(["inbox", "a.txt"], [104, 105]),
   (["data", "organized", "Documents", "8f434346_a.txt"], [1, 2, 3])]

set_option maxRecDepth 1000000 in
/-- Witness for `organize_collision_suffix_search`: the collision lands on
the first free suffix `_1` and the file is moved there. -/
theorem organize_collision_suffix_search_witness :
    organize_file dedupCfg {} collisionFs ["inbox"] "a.txt" =
      (some (suffixPathFor dedupCfg "a.txt" [104, 105] 1),
       fsInsert (fsErase collisionFs ["inbox", "a.txt"])
         (suffixPathFor dedupCfg "a.txt" [104, 105] 1) [104, 105]) :=
  (organize_collision_suffix_search dedupCfg {} collisionFs ["inbox"] "a.txt"
      [104, 105] [1, 2, 3] rfl rfl rfl (by decide) (by decide) (by decide)).1
    1 (by decide) (by decide) (by decide)
    (fun j h1 h2 => absurd (lt_of_le_of_lt h1 h2) (lt_irrefl 1))
    (by decide)

end SDO
